import Mathlib

/-!
Verification of the orbit-chat-frontend conversation state store, realtime
transport glue and session helpers.  The JavaScript sources are embedded
shallowly: each React `useState` cell becomes a field of an explicit state
record, each `setX(...)` call becomes a functional update of that field, and
each backend/HTTP/MQTT call is abstracted by an environment value recording
the outcome the network would have produced.  JavaScript objects used as
string-keyed maps are embedded either as Lean functions out of `String`
(when only lookup matters) or as ordered association lists (when
`Object.entries` order and key uniqueness are at stake).
-/

namespace Orbit

/-! ### JavaScript object primitives

A JS object used as a dictionary is an ordered list of key/value entries
with pairwise distinct keys.  `objSet k v m` is the spread update
`\x7b ...m, [k]: v \x7d`: an existing key keeps its position and receives the
new value, a fresh key is appended at the end.  `objRemove k m` is the
destructuring removal `const \x7b [k]: dropped, ...rest \x7d = m`.  `objGet`
is property lookup. -/

def objSet {α : Type} (k : String) (v : α) : List (String × α) → List (String × α)
  | [] => [(k, v)]
  | (k', v') :: t => if k' == k then (k, v) :: t else (k', v') :: objSet k v t

def objRemove {α : Type} (k : String) (m : List (String × α)) : List (String × α) :=
  m.filter (fun e => e.1 != k)

def objGet {α : Type} (k : String) : List (String × α) → Option α
  | [] => none
  | (k', v') :: t => if k' == k then some v' else objGet k t

/-- The keys of a JS object, in entry order. -/
def objKeys {α : Type} (m : List (String × α)) : List String :=
  m.map Prod.fst

/-- JavaScript `String.prototype.includes` on the underlying character
lists: `strIncludes s sub` is true when `sub` occurs contiguously in `s`. -/
def charsInclude (sub : List Char) : List Char → Bool
  | [] => sub.isEmpty
  | c :: t => sub.isPrefixOf (c :: t) || charsInclude sub t

def strIncludes (s sub : String) : Bool :=
  charsInclude sub.toList s.toList

/-- JavaScript `s.split('/')` (for a one-character separator), by
structural recursion over the characters so that it evaluates: the
accumulator holds the current segment's characters in reverse. -/
def splitCharAux (sep : Char) : List Char → List Char → List String
  | [], acc => [String.mk acc.reverse]
  | c :: rest, acc =>
    if c = sep then String.mk acc.reverse :: splitCharAux sep rest []
    else splitCharAux sep rest (c :: acc)

def splitChar (sep : Char) (s : String) : List String :=
  splitCharAux sep s.toList []

/-! ### MQTT topic matching (`MQTTClient.topicMatches`, src/unnamed/part_002)

The source splits both strings on `'/'`, rejects on differing segment
counts, and then walks the segments in lockstep accepting a pattern
segment that is `"+"` or equal to the topic segment. -/

/-- The indexed `for` loop of `topicMatches` (part_002 lines 332-336),
expressed as lockstep recursion over the two segment lists. -/
def segsMatch : List String → List String → Bool
  | [], [] => true
  | p :: ps, t :: ts => (p == "+" || p == t) && segsMatch ps ts
  | _, _ => false

/-- `MQTTClient.topicMatches(pattern, topic)` (part_002 lines 324-339). -/
def topicMatches (pattern topic : String) : Bool :=
  let patternParts := splitChar '/' pattern
  let topicParts := splitChar '/' topic
  if patternParts.length != topicParts.length then false
  else segsMatch patternParts topicParts

/-! ### Data records of the Conversation State Store (src/src/contexts/ChatContext.js)

Only the fields the store's logic actually reads are kept.  A conversation's
`participants` array of participant objects is represented by the list of the
`user_id` fields, which is the only part `loadConversations` reads. -/

structure MsgRec where
  id : String
  sender_id : String
  content : String
  metaStatus : String
  attachmentId : Option String
deriving DecidableEq

structure ConvRec where
  id : String
  participantIds : List String
  latest_message : Option MsgRec
deriving DecidableEq

structure PresenceRecord where
  user_id : String
  status : String
  custom_status : String
deriving DecidableEq

structure TypingEntry where
  display_name : String
  timestamp : Nat
deriving DecidableEq

/-- The `useState` cells of `ChatProvider`.  `messages` and `participants`
are JS objects keyed by conversation id whose keys may be absent
(`messages[id]` is `undefined` before the first load), hence `Option`.
`presenceData` and the per-conversation typing maps are JS objects embedded
as ordered association lists. -/
structure ChatStore where
  conversations : List ConvRec
  activeConversation : Option String
  messages : String → Option (List MsgRec)
  participants : String → Option (List String)
  presenceData : List (String × PresenceRecord)
  typingUsers : String → List (String × TypingEntry)
  isLoading : Bool
  error : Option String

/-- The conversation id embedded in a realtime topic:
`topic.split('/')[1]` (ChatContext.js lines 320, 355). -/
def topicConversationId (topic : String) : String :=
  (splitChar '/' topic).getD 1 ""

/-! ### `handleNewMessage` (ChatContext.js lines 319-351)

The handler deduplicates by message id before prepending, and
unconditionally repoints the conversation's `latest_message`.  The delayed
`loadMessages` refetch it schedules for foreign messages in the active
conversation is a server call outside the state update and is not part of
this store transition. -/

def handleNewMessage (st : ChatStore) (messageData : MsgRec) (topic : String) : ChatStore :=
  let conversationId := topicConversationId topic
  let existingMessages := (st.messages conversationId).getD []
  let messageExists := existingMessages.any (fun msg => msg.id == messageData.id)
  let messages' :=
    if messageExists then st.messages
    else fun c => if c == conversationId then some (messageData :: existingMessages)
                  else st.messages c
  let conversations' := st.conversations.map (fun conv =>
    if conv.id == conversationId then { conv with latest_message := some messageData } else conv)
  { st with conversations := conversations', messages := messages' }

/-- A sequence of inbound realtime message events `(messageData, topic)`
applied in arrival order. -/
def applyNewMessages (st : ChatStore) (evs : List (MsgRec × String)) : ChatStore :=
  evs.foldl (fun s e => handleNewMessage s e.1 e.2) st

/-! ### Presence ingestion

`handlePresenceUpdate` (ChatContext.js lines 393-398) is the spread update
`\x7b ...prev, [presenceData.user_id]: presenceData \x7d`.  The two REST paths
write the same cell: `loadConversations` replaces the object wholesale
(line 56) and `loadParticipants` merges `\x7b ...prev, ...presenceResponse \x7d`
(line 106). -/

def handlePresenceUpdate (st : List (String × PresenceRecord)) (p : PresenceRecord) :
    List (String × PresenceRecord) :=
  objSet p.user_id p st

inductive PresenceOp where
  | push (p : PresenceRecord)
  | bulkReplace (resp : List (String × PresenceRecord))
  | bulkMerge (resp : List (String × PresenceRecord))

def applyPresenceOp (st : List (String × PresenceRecord)) :
    PresenceOp → List (String × PresenceRecord)
  | .push p => handlePresenceUpdate st p
  | .bulkReplace resp => resp
  | .bulkMerge resp => resp.foldl (fun m e => objSet e.1 e.2 m) st

def applyPresenceOps (st : List (String × PresenceRecord)) (ops : List PresenceOp) :
    List (String × PresenceRecord) :=
  ops.foldl applyPresenceOp st

/-- A REST bulk-presence payload is itself a JS object, so its keys are
pairwise distinct. -/
def PresenceOpWF : PresenceOp → Prop
  | .push _ => True
  | .bulkReplace resp => (objKeys resp).Nodup
  | .bulkMerge resp => (objKeys resp).Nodup

/-! ### `getTypingUsers` (ChatContext.js lines 459-464) -/

structure TypingView where
  userId : String
  display_name : String
  timestamp : Nat
deriving DecidableEq

/-- `Object.entries(typingUsers[conversationId] || \x7b\x7d)` filtered to exclude
the current user and reshaped for the view. -/
def getTypingUsers (currentUserId : String) (st : ChatStore) (conversationId : String) :
    List TypingView :=
  let typing := st.typingUsers conversationId
  (typing.filter (fun e => e.1 != currentUserId)).map
    (fun e => { userId := e.1, display_name := e.2.display_name, timestamp := e.2.timestamp })

/-! ### `loadConversations` (ChatContext.js lines 34-73)

The store transition given the outcomes of the chat-service fetch and the
best-effort bulk presence fetch.  `setIsLoading(true)`/`setError(null)` run
first and `setIsLoading(false)` runs in `finally`; the record below is the
state after the whole call settles. -/

def chatUnavailableMsg : String :=
  "Chat service is not available. Please ensure your backend services are running."

structure LoadConversationsEnv where
  convFetch : Except String (List ConvRec)
  presenceFetch : Except String (List (String × PresenceRecord))

def loadConversations (env : LoadConversationsEnv) (st : ChatStore) : ChatStore :=
  match env.convFetch with
  | .ok conversationsData =>
      let allParticipantIds := ((conversationsData.map ConvRec.participantIds).flatten).dedup
      let st1 := { st with conversations := conversationsData, error := none, isLoading := false }
      if allParticipantIds.isEmpty then st1
      else
        match env.presenceFetch with
        | .ok presenceResponse => { st1 with presenceData := presenceResponse }
        | .error _ => st1
  | .error _ =>
      { st with conversations := [], error := some chatUnavailableMsg, isLoading := false }

/-! ### The per-file upload retry loop of `sendMessageWithFiles`
(ChatContext.js lines 197-261)

One attempt is the whole `initiateUpload` / storage `PUT` /
`completeUpload` sequence; its outcome is either an attachment id or the
message of the error it threw.  The attempt performed while the mutable
`retries` counter holds `i` is `attempts i`: `retries` is incremented
exactly once per foreign-key-shaped failure, so the counter value
enumerates the attempts. -/

def maxRetries : Nat := 10

def retryDelayMs : Nat := 500

/-- The error-signature test of the `catch` block (lines 246-247). -/
def isFkViolation (m : String) : Bool :=
  strIncludes m "attachments_message_id_fkey" || strIncludes m "foreign key constraint"

inductive AttemptOutcome where
  | ok (attachment_id : String)
  | err (msg : String)

def outcomeMsg : AttemptOutcome → String
  | .ok _ => ""
  | .err m => m

def outcomeFkErr : AttemptOutcome → Bool
  | .ok _ => false
  | .err m => isFkViolation m

/-- How the `while` loop ended: `break` on success, `throw uploadError`
from the catch block, or the loop condition turning false. -/
inductive UploadExit where
  | broke (attachment_id : String)
  | threw (msg : String)
  | condFalse
deriving DecidableEq

structure UploadRun where
  exit : UploadExit
  retriesFinal : Nat
  attemptsMade : Nat
  delaysDone : Nat
deriving DecidableEq

/-- The `while (retries < maxRetries)` loop, made structurally recursive on
the gas `maxRetries - retries`; the top-level entry `uploadLoop` supplies
`gas = maxRetries` for `retries = 0`, so the gas never runs out before the
loop condition does.  `attemptsMade` counts executions of the `try` body
and `delaysDone` counts the 500 ms sleeps taken before `continue`. -/
def uploadLoopAux (attempts : Nat → AttemptOutcome) :
    Nat → Nat → Nat → Nat → UploadRun
  | 0, retries, acc, dcount => ⟨.condFalse, retries, acc, dcount⟩
  | gas + 1, retries, acc, dcount =>
    match attempts retries with
    | .ok aid => ⟨.broke aid, retries, acc + 1, dcount⟩
    | .err m =>
      if isFkViolation m then
        if retries + 1 < maxRetries then
          uploadLoopAux attempts gas (retries + 1) (acc + 1) (dcount + 1)
        else ⟨.threw m, retries + 1, acc + 1, dcount⟩
      else ⟨.threw m, retries, acc + 1, dcount⟩

def uploadLoop (attempts : Nat → AttemptOutcome) : UploadRun :=
  uploadLoopAux attempts maxRetries 0 0 0

/-- The post-loop guard of lines 259-261. -/
def descriptiveFailure (fileName : String) : String :=
  "Failed to upload " ++ fileName ++ ": Message not found in database after "
    ++ toString maxRetries ++ " attempts"

/-- Result of processing one file after the message row exists:
`.error msg` when the loop (or the post-loop guard) threw, `.ok (some aid)`
when an attempt succeeded, `.ok none` when the loop fell through without a
`break` and the guard did not fire (unreachable from `retries = 0`). -/
def fileUploadStep (fileName : String) (attempts : Nat → AttemptOutcome) :
    Except String (Option String) :=
  match uploadLoop attempts with
  | ⟨.broke aid, r, _, _⟩ =>
      if maxRetries ≤ r then .error (descriptiveFailure fileName) else .ok (some aid)
  | ⟨.threw m, _, _, _⟩ => .error m
  | ⟨.condFalse, r, _, _⟩ =>
      if maxRetries ≤ r then .error (descriptiveFailure fileName) else .ok none

/-! ### `sendMessageWithFiles` (ChatContext.js lines 177-280)

A file's interaction with the backends is a script: the outcome of the
`chatApiEndpoints.sendMessage` row creation, and the outcome of each upload
attempt. -/

structure FileScript where
  fileName : String
  createResult : Except String MsgRec
  attempts : Nat → AttemptOutcome

/-- Lines 225-239: the message row patched to `ready` with its attachment id. -/
def readyMessage (newMessage : MsgRec) (aid : String) : MsgRec :=
  { newMessage with metaStatus := "ready", attachmentId := some aid }

/-- The `setMessages` update of lines 234-239:
`prev[conversationId]?.map(...) || []`. -/
def applyReadyUpdate (conversationId : String) (newMessage : MsgRec) (aid : String)
    (st : ChatStore) : ChatStore :=
  { st with messages := fun c =>
      if c == conversationId then
        some (((st.messages c).getD []).map
          (fun msg => if msg.id == newMessage.id then readyMessage newMessage aid else msg))
      else st.messages c }

/-- The `for (const fileObj of files)` loop threading the store and the
`lastMessage` local. -/
def processFiles (conversationId : String) :
    List FileScript → ChatStore → Option MsgRec →
      Except String Unit × ChatStore × Option MsgRec
  | [], st, lastMessage => (.ok (), st, lastMessage)
  | f :: rest, st, lastMessage =>
    match f.createResult with
    | .error e => (.error e, st, lastMessage)
    | .ok newMessage =>
      match fileUploadStep f.fileName f.attempts with
      | .error e => (.error e, st, lastMessage)
      | .ok none => processFiles conversationId rest st lastMessage
      | .ok (some aid) =>
          processFiles conversationId rest
            (applyReadyUpdate conversationId newMessage aid st)
            (some (readyMessage newMessage aid))

/-- Lines 264-273: only after every file succeeded is the conversation's
`latest_message` pointer repointed (guarded by `if (lastMessage)`). -/
def sendMessageWithFiles (conversationId : String) (files : List FileScript)
    (st : ChatStore) : Except String Unit × ChatStore :=
  match processFiles conversationId files st none with
  | (.error e, st', _) => (.error e, st')
  | (.ok (), st', none) => (.ok (), st')
  | (.ok (), st', some m) =>
      (.ok (), { st' with conversations := st'.conversations.map (fun conv =>
        if conv.id == conversationId then { conv with latest_message := some m } else conv) })

/-- The state change a single file's script contributes when it does not
throw; used to describe the store after the successful prefix. -/
def applyFileUpdate (conversationId : String) (st : ChatStore) (f : FileScript) : ChatStore :=
  match f.createResult, fileUploadStep f.fileName f.attempts with
  | .ok m, .ok (some aid) => applyReadyUpdate conversationId m aid st
  | _, _ => st

/-- A file's script throws: either the row creation or the upload step errors. -/
def fileFails (f : FileScript) : Bool :=
  (match f.createResult with | .error _ => true | .ok _ => false)
  || (match fileUploadStep f.fileName f.attempts with | .error _ => true | .ok _ => false)

def firstFailIdx : List FileScript → Option Nat
  | [] => none
  | f :: rest => if fileFails f then some 0 else (firstFailIdx rest).map (· + 1)

/-! ### `selectConversation` (ChatContext.js lines 117-146)

The transition records both the resulting store and the trace of external
calls issued, in program order.  `loadMessages` (lines 76-90) with
`offset = 0` replaces the conversation's message cache; `loadParticipants`
(lines 93-114) also fetches presence for the fetched participants and
merges it.  Any thrown error is caught by the surrounding `catch`, which
stores `error.message` and stops the remaining steps. -/

inductive Request where
  | fetchMessages (conversationId : String)
  | fetchParticipants (conversationId : String)
  | fetchPresence (userIds : List String)
  | subscribeMessages (conversationId : String)
  | subscribeTyping (conversationId : String)
  | markRead (conversationId : String)
deriving DecidableEq

structure SelectEnv where
  messagesFetch : String → Except String (List MsgRec)
  participantsFetch : String → Except String (List String)
  presenceFetch : List String → Except String (List (String × PresenceRecord))
  markReadResult : String → Except String Unit
  mqttConnected : Bool

def setMessagesAt (st : ChatStore) (conversationId : String) (data : List MsgRec) : ChatStore :=
  { st with messages := fun c => if c == conversationId then some data else st.messages c }

def setParticipantsAt (st : ChatStore) (conversationId : String) (data : List String) : ChatStore :=
  { st with participants := fun c => if c == conversationId then some data else st.participants c }

/-- `loadMessages(conversationId)` with the default `offset = 0`. -/
def loadMessagesCall (env : SelectEnv) (st : ChatStore) (conversationId : String) :
    Except String ChatStore × List Request :=
  match env.messagesFetch conversationId with
  | .ok messagesData => (.ok (setMessagesAt st conversationId messagesData),
      [.fetchMessages conversationId])
  | .error e => (.error e, [.fetchMessages conversationId])

/-- `loadParticipants(conversationId)`: participant fetch, then presence for
the participant ids when there are any, merged into the presence cell. -/
def loadParticipantsCall (env : SelectEnv) (st : ChatStore) (conversationId : String) :
    Except String ChatStore × List Request :=
  match env.participantsFetch conversationId with
  | .error e => (.error e, [.fetchParticipants conversationId])
  | .ok participantsData =>
    let st1 := setParticipantsAt st conversationId participantsData
    let userIds := participantsData
    if userIds.isEmpty then (.ok st1, [.fetchParticipants conversationId])
    else
      match env.presenceFetch userIds with
      | .ok presenceResponse =>
          (.ok { st1 with presenceData :=
              presenceResponse.foldl (fun m e => objSet e.1 e.2 m) st1.presenceData },
            [.fetchParticipants conversationId, .fetchPresence userIds])
      | .error e => (.error e, [.fetchParticipants conversationId, .fetchPresence userIds])

def selectConversation (env : SelectEnv) (st : ChatStore) (conversationId : String) :
    ChatStore × List Request :=
  let st0 := { st with activeConversation := some conversationId }
  -- if (!messages[conversationId]) await loadMessages(conversationId)
  let (r1, reqs1) :=
    match st0.messages conversationId with
    | some _ => (Except.ok st0, ([] : List Request))
    | none => loadMessagesCall env st0 conversationId
  match r1 with
  | .error e => ({ st0 with error := some e }, reqs1)
  | .ok st1 =>
    -- if (!participants[conversationId]) await loadParticipants(conversationId)
    let (r2, reqs2) :=
      match st1.participants conversationId with
      | some _ => (Except.ok st1, ([] : List Request))
      | none => loadParticipantsCall env st1 conversationId
    match r2 with
    | .error e => ({ st1 with error := some e }, reqs1 ++ reqs2)
    | .ok st2 =>
      -- if (mqttClient && mqttClient.isConnected) subscribe to both topics
      let reqs3 :=
        if env.mqttConnected then
          [Request.subscribeMessages conversationId, Request.subscribeTyping conversationId]
        else []
      -- await chatApiEndpoints.markAsRead(conversationId)
      match env.markReadResult conversationId with
      | .error e => ({ st2 with error := some e }, reqs1 ++ reqs2 ++ reqs3 ++ [.markRead conversationId])
      | .ok () =>
        -- await loadMessages(conversationId)  -- unconditional refetch
        let (r4, reqs4) := loadMessagesCall env st2 conversationId
        match r4 with
        | .error e => ({ st2 with error := some e },
            reqs1 ++ reqs2 ++ reqs3 ++ [.markRead conversationId] ++ reqs4)
        | .ok st4 => (st4, reqs1 ++ reqs2 ++ reqs3 ++ [.markRead conversationId] ++ reqs4)

/-! ### `authHelpers.login` (src/unnamed/part_001 lines 139-200)

The direct backend login is tried first; on any failure the Keycloak
resource-owner password grant is attempted.  HTTP failures carry the
optional `response.data.error` / `response.data.error_description` field
read by the final rethrow.  Inside the fallback, the user profile literal
(line 189) reads `organizationId`, an identifier that is bound nowhere in
the module (`login` only binds `email` and `password`): in an ES module
this evaluation raises a `ReferenceError` before `TokenManager.setToken`
runs, and `catch (keycloakError)` converts it to the generic failure. -/

structure AuthUser where
  id : String
  email : String
  display_name : String
  username : String
  organization_id : String
deriving DecidableEq

structure KeycloakUserInfo where
  sub : String
  email : String
  name : Option String
  preferred_username : String
deriving DecidableEq

structure LoginEnv where
  directLogin : Except (Option String) (AuthUser × String)
  keycloakToken : Except (Option String) String
  userinfo : Except (Option String) KeycloakUserInfo

structure LoginResult where
  outcome : Except String (AuthUser × String)
  storedToken : Option String
  storedUser : Option AuthUser
  keycloakAttempted : Bool

/-- `error.response?.data?.error || keycloakError.response?.data?.error_description
|| 'Login failed'` with absent fields as `none`. -/
def loginFailureMessage (directErr kcErr : Option String) : String :=
  match directErr with
  | some m => m
  | none => match kcErr with
    | some m => m
    | none => "Login failed"

def login (env : LoginEnv) : LoginResult :=
  match env.directLogin with
  | .ok (user, token) =>
      { outcome := .ok (user, token), storedToken := some token,
        storedUser := some user, keycloakAttempted := false }
  | .error directErr =>
    match env.keycloakToken with
    | .error kcErr =>
        { outcome := .error (loginFailureMessage directErr kcErr),
          storedToken := none, storedUser := none, keycloakAttempted := true }
    | .ok _accessToken =>
      match env.userinfo with
      | .error kcErr =>
          { outcome := .error (loginFailureMessage directErr kcErr),
            storedToken := none, storedUser := none, keycloakAttempted := true }
      | .ok _userInfo =>
          -- const user = \x7b ..., organization_id: organizationId || 'default-org' \x7d
          -- `organizationId` is unbound: ReferenceError, caught by
          -- `catch (keycloakError)`; a ReferenceError has no `response`
          -- field, so the rethrown message falls back past it.
          { outcome := .error (loginFailureMessage directErr none),
            storedToken := none, storedUser := none, keycloakAttempted := true }

/-! ### `handleTypingIndicator` and its 5-second expiry
(ChatContext.js lines 354-390)

The handler upserts (or, for a stop event, removes) the per-user entry of
`typingUsers[conversationId]`, and unconditionally schedules a
`setTimeout(..., 5000)` whose callback removes that user's entry again.
The simulation keeps the still-pending timeouts as `(dueTime,
conversationId, user_id)` triples; `fireDue now` runs every callback whose
due time has been reached (each callback is exactly the destructuring
removal of lines 381-388, so running the batch in one pass is the same as
running them one by one).  Event timestamps and the clock are milliseconds
as naturals. -/

structure TypingData where
  user_id : String
  display_name : String
  is_typing : Bool
  timestamp : Nat
deriving DecidableEq

def typingExpiryMs : Nat := 5000

/-- The `setTypingUsers` functional update of lines 357-378. -/
def handleTypingIndicator (typingUsers : String → List (String × TypingEntry))
    (typingData : TypingData) (topic : String) : String → List (String × TypingEntry) :=
  let conversationId := topicConversationId topic
  let conversationTyping := typingUsers conversationId
  if typingData.is_typing then
    fun c => if c == conversationId then
        objSet typingData.user_id ⟨typingData.display_name, typingData.timestamp⟩ conversationTyping
      else typingUsers c
  else
    fun c => if c == conversationId then objRemove typingData.user_id conversationTyping
      else typingUsers c

structure TypingSim where
  typingUsers : String → List (String × TypingEntry)
  timers : List (Nat × String × String)

/-- Is this pending timeout due at `now` and aimed at `(c, u)`? -/
def timerDue (now : Nat) (c u : String) (tm : Nat × String × String) : Bool :=
  tm.1 ≤ now && tm.2.1 == c && tm.2.2 == u

/-- Run every timeout callback (each one the removal of lines 380-389)
whose due time is ≤ `now`, and drop those timeouts. -/
def fireDue (now : Nat) (sim : TypingSim) : TypingSim :=
  { typingUsers := fun c =>
      (sim.typingUsers c).filter (fun e => !(sim.timers.any (timerDue now c e.1))),
    timers := sim.timers.filter (fun tm => now < tm.1) }

structure TimedTypingEvent where
  time : Nat
  topic : String
  data : TypingData
deriving DecidableEq

/-- One inbound typing event at wall-clock `ev.time`: first the timeouts
that came due beforehand fire, then the handler runs and schedules the new
5-second removal. -/
def stepTypingEvent (sim : TypingSim) (ev : TimedTypingEvent) : TypingSim :=
  let fired := fireDue ev.time sim
  { typingUsers := handleTypingIndicator fired.typingUsers ev.data ev.topic,
    timers := (ev.time + typingExpiryMs, topicConversationId ev.topic, ev.data.user_id)
      :: fired.timers }

def initTypingSim : TypingSim := ⟨fun _ => [], []⟩

def runTyping (evs : List TimedTypingEvent) : TypingSim :=
  evs.foldl stepTypingEvent initTypingSim

/-- The typing map an observer sees at time `now` after the event trace
`evs`: all timeouts due by `now` have fired. -/
def observeTyping (evs : List TimedTypingEvent) (now : Nat) :
    String → List (String × TypingEntry) :=
  (fireDue now (runTyping evs)).typingUsers

def isTypingEventFor (c u : String) (ev : TimedTypingEvent) : Bool :=
  topicConversationId ev.topic == c && ev.data.user_id == u && ev.data.is_typing

/-- Times of the typing (not stop) events of `u` in conversation `c`. -/
def typingTimes (evs : List TimedTypingEvent) (c u : String) : List Nat :=
  (evs.filter (isTypingEventFor c u)).map TimedTypingEvent.time

/-- The time of the most recent typing event of `u` in `c` (0 when none). -/
def lastTypingTime (evs : List TimedTypingEvent) (c u : String) : Nat :=
  (typingTimes evs c u).foldr max 0

/-- Invariant tying every live typing entry to a still-pending timeout that
a typing event of the processed prefix scheduled. -/
def SimInv (evs : List TimedTypingEvent) (sim : TypingSim) : Prop :=
  ∀ c u, (objGet u (sim.typingUsers c)).isSome →
    ∃ d, (d, c, u) ∈ sim.timers ∧
      ∃ ev ∈ evs, isTypingEventFor c u ev = true ∧ d = ev.time + typingExpiryMs

/-! ### Concrete sample data used by the witness and counterexample
theorems. -/

def emptyStore : ChatStore :=
  { conversations := [], activeConversation := none, messages := fun _ => none,
    participants := fun _ => none, presenceData := [], typingUsers := fun _ => [],
    isLoading := false, error := none }

def msgA : MsgRec := ⟨"m1", "alice", "hi", "", none⟩
def msgB : MsgRec := ⟨"m2", "bob", "yo", "", none⟩

def convSample : ConvRec := ⟨"c1", ["alice", "bob"], none⟩

/-- A store already holding one cached conversation and its messages. -/
def cachedStore : ChatStore :=
  { emptyStore with
      conversations := [convSample],
      messages := fun c => if c == "c1" then some [msgA] else none,
      participants := fun c => if c == "c1" then some ["alice", "bob"] else none }

def envConvFail : LoadConversationsEnv :=
  { convFetch := .error "connect ECONNREFUSED", presenceFetch := .ok [] }

/-- Every upload attempt dies on the foreign-key race signature. -/
def attemptsAllFk : Nat → AttemptOutcome := fun _ =>
  .err "insert or update on table violates foreign key constraint"

/-- First attempt fails with an unrelated storage error. -/
def attemptsStorageFail : Nat → AttemptOutcome := fun _ =>
  .err "Failed to upload report.pdf to storage"

def attemptsOk : Nat → AttemptOutcome := fun _ => .ok "att-1"

def fileGood : FileScript :=
  { fileName := "photo.png", createResult := .ok msgA, attempts := attemptsOk }

def fileBad : FileScript :=
  { fileName := "report.pdf", createResult := .ok msgB, attempts := attemptsStorageFail }

def envSelect : SelectEnv :=
  { messagesFetch := fun _ => .ok [msgA],
    participantsFetch := fun _ => .ok ["alice", "bob"],
    presenceFetch := fun _ => .ok [],
    markReadResult := fun _ => .ok (),
    mqttConnected := false }

def envLoginFallback : LoginEnv :=
  { directLogin := .error (some "invalid credentials"),
    keycloakToken := .ok "kc-access-token",
    userinfo := .ok ⟨"u1", "alice@example.com", some "Alice", "alice"⟩ }

def typingEvSample : TimedTypingEvent :=
  ⟨1000, "chat/c1/typing", ⟨"bob", "Bob", true, 1000⟩⟩

def presSample : PresenceRecord := ⟨"alice", "online", ""⟩
def presSample2 : PresenceRecord := ⟨"alice", "away", "brb"⟩
def presBob : PresenceRecord := ⟨"bob", "dnd", ""⟩

/-- A presence update sequence hitting the same user twice (push then
push) and then a bulk REST merge. -/
def presOpsSample : List PresenceOp :=
  [.push presSample, .push presSample2, .bulkMerge [("bob", presBob)]]

/-- The same realtime message event delivered twice. -/
def dupMessageEvents : List (MsgRec × String) :=
  [(msgB, "chat/c1/messages"), (msgB, "chat/c1/messages")]

/-- A store whose typing map for `c1` holds an echo of the local user
(`me`) next to another participant. -/
def typingStoreSample : ChatStore :=
  { emptyStore with typingUsers := fun c =>
      if c == "c1" then [("me", ⟨"Me", 0⟩), ("bob", ⟨"Bob", 1⟩)] else [] }

/-! ## Helper lemmas about the JS-object primitives -/

theorem objGet_isSome_iff {α : Type} (k : String) (l : List (String × α)) :
    (objGet k l).isSome = true ↔ ∃ v, (k, v) ∈ l := by
  induction l with
  | nil => simp [objGet]
  | cons e t ih =>
    obtain ⟨k', v'⟩ := e
    by_cases h : k' = k
    · subst h
      simp [objGet]
    · have hne : (k' == k) = false := by simp [h]
      simp only [objGet, hne, Bool.false_eq_true, if_false, ih, List.mem_cons]
      constructor
      · rintro ⟨v, hv⟩; exact ⟨v, Or.inr hv⟩
      · rintro ⟨v, hv | hv⟩
        · cases hv; simp_all
        · exact ⟨v, hv⟩

theorem objSet_cons {α : Type} (k k' : String) (v v' : α) (t : List (String × α)) :
    objSet k v ((k', v') :: t) =
      if k' = k then (k, v) :: t else (k', v') :: objSet k v t := by
  by_cases h : k' = k <;> simp [objSet, h]

theorem objRemove_cons {α : Type} (k k' : String) (v' : α) (t : List (String × α)) :
    objRemove k ((k', v') :: t) =
      if k' = k then objRemove k t else (k', v') :: objRemove k t := by
  by_cases h : k' = k <;> simp [objRemove, List.filter_cons, h]

theorem objGet_cons {α : Type} (u k' : String) (v' : α) (t : List (String × α)) :
    objGet u ((k', v') :: t) = if k' = u then some v' else objGet u t := by
  by_cases h : k' = u <;> simp [objGet, h]

theorem objGet_objSet {α : Type} (k u : String) (v : α) (l : List (String × α)) :
    objGet u (objSet k v l) = if u = k then some v else objGet u l := by
  induction l with
  | nil =>
    by_cases h : u = k
    · simp [objSet, objGet, h]
    · simp [objSet, objGet_cons, Ne.symm h, h]
  | cons e t ih =>
    obtain ⟨k', v'⟩ := e
    rw [objSet_cons]
    by_cases hk : k' = k
    · rw [if_pos hk]
      by_cases hu : u = k'
      · simp [objGet_cons, hu, hk, hu.trans hk]
      · have huk : u ≠ k := fun hh => hu (hh.trans hk.symm)
        simp [objGet_cons, Ne.symm hu, Ne.symm huk, huk, hk ▸ Ne.symm hu]
    · rw [if_neg hk]
      by_cases hu : u = k'
      · have huk : u ≠ k := fun hh => hk (hu ▸ hh)
        simp [objGet_cons, hu, huk, hk]
      · simp [objGet_cons, Ne.symm hu, ih]

theorem objGet_objRemove {α : Type} (k u : String) (l : List (String × α)) :
    objGet u (objRemove k l) = if u = k then none else objGet u l := by
  induction l with
  | nil => by_cases h : u = k <;> simp [objRemove, objGet, h]
  | cons e t ih =>
    obtain ⟨k', v'⟩ := e
    rw [objRemove_cons]
    by_cases hk : k' = k
    · rw [if_pos hk, ih]
      by_cases hu : u = k'
      · simp [hu.trans hk, objGet_cons, hu]
      · have huk : (u = k) ↔ False := by
          constructor
          · intro hh; exact hu (hh.trans hk.symm)
          · exact False.elim
        simp [objGet_cons, Ne.symm hu, huk]
    · rw [if_neg hk]
      by_cases hu : u = k'
      · have huk : u ≠ k := fun hh => hk (hu ▸ hh)
        simp [objGet_cons, hu, huk, hk]
      · simp [objGet_cons, Ne.symm hu, ih]

theorem objKeys_objSet_of_mem {α : Type} (k : String) (v : α) :
    ∀ l : List (String × α), k ∈ objKeys l → objKeys (objSet k v l) = objKeys l := by
  intro l
  induction l with
  | nil => intro h; simp [objKeys] at h
  | cons e t ih =>
    intro h
    obtain ⟨k', v'⟩ := e
    rw [objSet_cons]
    by_cases hk : k' = k
    · rw [if_pos hk]; simp [objKeys, hk]
    · rw [if_neg hk]
      have hmem : k ∈ objKeys t := by
        rcases (by simpa [objKeys] using h : k = k' ∨ k ∈ objKeys t) with h1 | h1
        · exact absurd h1 (Ne.symm hk)
        · exact h1
      simp only [objKeys, List.map_cons, List.cons.injEq, true_and]
      exact ih hmem

theorem objKeys_objSet_of_not_mem {α : Type} (k : String) (v : α) :
    ∀ l : List (String × α), k ∉ objKeys l → objKeys (objSet k v l) = objKeys l ++ [k] := by
  intro l
  induction l with
  | nil => intro _; simp [objSet, objKeys]
  | cons e t ih =>
    intro h
    obtain ⟨k', v'⟩ := e
    have hk : k' ≠ k := by
      intro hh; exact h (by simp [objKeys, hh])
    have ht : k ∉ objKeys t := by
      intro hm
      exact h (show k ∈ objKeys ((k', v') :: t) from List.mem_cons_of_mem _ hm)
    rw [objSet_cons, if_neg hk]
    simp only [objKeys, List.map_cons, List.cons_append, List.cons.injEq, true_and]
    exact ih ht

theorem objKeys_objSet_nodup {α : Type} (k : String) (v : α) (l : List (String × α))
    (h : (objKeys l).Nodup) : (objKeys (objSet k v l)).Nodup := by
  by_cases hm : k ∈ objKeys l
  · rw [objKeys_objSet_of_mem k v l hm]; exact h
  · rw [objKeys_objSet_of_not_mem k v l hm]
    simpa [List.nodup_append] using ⟨h, hm⟩

/-! ## Topic matching (C8) -/

theorem segsMatch_iff (ps : List String) : ∀ ts : List String,
    segsMatch ps ts = true ↔
      (ps.length = ts.length ∧
        ∀ i, i < ps.length → (ps.getD i "" = "+" ∨ ps.getD i "" = ts.getD i "")) := by
  induction ps with
  | nil =>
    intro ts
    cases ts <;> simp [segsMatch]
  | cons p ps ih =>
    intro ts
    cases ts with
    | nil => simp [segsMatch]
    | cons t ts =>
      simp only [segsMatch, Bool.and_eq_true, Bool.or_eq_true, beq_iff_eq, ih ts,
        List.length_cons]
      constructor
      · rintro ⟨hp, hlen, hall⟩
        refine ⟨by omega, ?_⟩
        intro i hi
        cases i with
        | zero => simpa using hp
        | succ n => simpa using hall n (by omega)
      · rintro ⟨hlen, hall⟩
        refine ⟨by simpa using hall 0 (by omega), by omega, ?_⟩
        intro i hi
        simpa using hall (i + 1) (by omega)

/-- C8: `topicMatches` accepts exactly when the pattern and the topic split
into the same number of `/`-separated segments and every pattern segment is
the wildcard `+` or equals the topic segment in the same position; hence a
pattern with a different segment count never matches and `+` stands for
exactly one segment. -/
theorem topicMatches_correct (pattern topic : String) :
    topicMatches pattern topic = true ↔
      ((splitChar '/' pattern).length = (splitChar '/' topic).length ∧
        ∀ i, i < (splitChar '/' pattern).length →
          ((splitChar '/' pattern).getD i "" = "+" ∨
            (splitChar '/' pattern).getD i "" = (splitChar '/' topic).getD i "")) := by
  unfold topicMatches
  by_cases h : (splitChar '/' pattern).length = (splitChar '/' topic).length
  · simpa [h, bne_iff_ne] using (segsMatch_iff (splitChar '/' pattern) (splitChar '/' topic))
  · simp only [bne_iff_ne, ne_eq, h, not_false_eq_true, if_true, Bool.false_eq_true,
      false_iff, not_and]
    intro hlen
    exact hlen.elim

/-! ## The typing list never shows the local user (C7) -/

/-- C7: for every store state and conversation, the list produced by
`getTypingUsers` contains no entry whose user identifier equals the current
user's identifier — the filter on line 462 drops the local user's own
entry regardless of how it got into the typing map. -/
theorem getTypingUsers_excludes_current (currentUserId : String) (st : ChatStore)
    (conversationId : String) (v : TypingView)
    (hv : v ∈ getTypingUsers currentUserId st conversationId) :
    v.userId ≠ currentUserId := by
  unfold getTypingUsers at hv
  simp only [List.mem_map, List.mem_filter] at hv
  obtain ⟨e, ⟨_, he⟩, rfl⟩ := hv
  simpa [bne_iff_ne] using he

/-- Even when an echo of the local user's own typing event sits in the
typing map, the exposed list only surfaces the other participant. -/
theorem getTypingUsers_excludes_current_witness :
    ({ userId := "bob", display_name := "Bob", timestamp := 1 } : TypingView).userId ≠ "me" :=
  getTypingUsers_excludes_current "me" typingStoreSample "c1" _ (by decide)

/-! ## `loadConversations` failure behaviour (C1) -/

/-- C1 as stated is false on the code: with a non-empty cached list and a
failing chat fetch, the cached conversations are not preserved — line 63
(`setConversations([])`) replaces them by the empty list. -/
theorem loadConversations_failure_cex :
    (loadConversations envConvFail cachedStore).conversations ≠
        cachedStore.conversations ∧
      (loadConversations envConvFail cachedStore).conversations = [] ∧
      cachedStore.conversations = [convSample] := by
  refine ⟨?_, rfl, rfl⟩
  decide

/-- C1 amended: when the chat fetch fails, `loadConversations` replaces the
cached conversations list by the empty list, stores the non-fatal banner
message in the error state, and clears the loading flag; it does not
throw. -/
theorem loadConversations_failure_behaviour (env : LoadConversationsEnv)
    (st : ChatStore) (e : String) (h : env.convFetch = .error e) :
    (loadConversations env st).conversations = [] ∧
      (loadConversations env st).error = some chatUnavailableMsg ∧
      (loadConversations env st).isLoading = false := by
  unfold loadConversations
  rw [h]
  exact ⟨rfl, rfl, rfl⟩

theorem loadConversations_failure_behaviour_witness :
    (loadConversations envConvFail cachedStore).conversations = [] ∧
      (loadConversations envConvFail cachedStore).error = some chatUnavailableMsg ∧
      (loadConversations envConvFail cachedStore).isLoading = false :=
  loadConversations_failure_behaviour envConvFail cachedStore "connect ECONNREFUSED" rfl

/-! ## `authHelpers.login` fallback (C9) -/

/-- C9: the direct login is indeed tried first and Keycloak only on its
failure, but a fallback in which every Keycloak call succeeds still fails:
building the user profile reads the unbound `organizationId` (part_001
line 189), so the fallback raises a ReferenceError before storing anything
— the call rejects and neither a token nor a user profile is stored,
contradicting the claim that a successful fallback stores both. -/
theorem login_fallback_reference_error :
    login envLoginFallback =
      { outcome := .error "invalid credentials", storedToken := none,
        storedUser := none, keycloakAttempted := true } := rfl

/-! ## Presence: one record per user, last write wins (C4) -/

theorem foldl_objSet_nodup {α : Type} (resp : List (String × α)) :
    ∀ st : List (String × α), (objKeys st).Nodup →
      (objKeys (resp.foldl (fun m e => objSet e.1 e.2 m) st)).Nodup := by
  induction resp with
  | nil => intro st h; exact h
  | cons e t ih =>
    intro st h
    exact ih _ (objKeys_objSet_nodup _ _ _ h)

theorem applyPresenceOp_nodup (st : List (String × PresenceRecord)) (op : PresenceOp)
    (hst : (objKeys st).Nodup) (hop : PresenceOpWF op) :
    (objKeys (applyPresenceOp st op)).Nodup := by
  cases op with
  | push p => exact objKeys_objSet_nodup _ _ _ hst
  | bulkReplace resp => exact hop
  | bulkMerge resp => exact foldl_objSet_nodup resp st hst

theorem applyPresenceOps_nodup (ops : List PresenceOp) :
    ∀ st : List (String × PresenceRecord), (objKeys st).Nodup →
      (∀ op ∈ ops, PresenceOpWF op) → (objKeys (applyPresenceOps st ops)).Nodup := by
  induction ops with
  | nil => intro st h _; exact h
  | cons op ops ih =>
    intro st h hops
    exact ih _ (applyPresenceOp_nodup st op h (hops op (List.mem_cons_self op ops)))
      (fun o ho => hops o (List.mem_cons_of_mem op ho))

/-- C4: over any sequence of presence updates — realtime pushes through
`handlePresenceUpdate`, bulk REST replacements and bulk merges — the
presence object keeps at most one entry per user identifier, and a
realtime push overwrites the user's record unconditionally (the record
looked up afterwards is the pushed one). -/
theorem presence_one_record_per_user (st : List (String × PresenceRecord))
    (ops : List PresenceOp) (hst : (objKeys st).Nodup)
    (hops : ∀ op ∈ ops, PresenceOpWF op) :
    (∀ uid, (objKeys (applyPresenceOps st ops)).count uid ≤ 1) ∧
    (∀ (m : List (String × PresenceRecord)) (p : PresenceRecord),
      objGet p.user_id (handlePresenceUpdate m p) = some p) := by
  constructor
  · intro uid
    exact List.nodup_iff_count_le_one.mp (applyPresenceOps_nodup ops st hst hops) uid
  · intro m p
    unfold handlePresenceUpdate
    rw [objGet_objSet]
    simp

theorem presence_one_record_per_user_witness :
    (∀ uid, (objKeys (applyPresenceOps [] presOpsSample)).count uid ≤ 1) ∧
    (∀ (m : List (String × PresenceRecord)) (p : PresenceRecord),
      objGet p.user_id (handlePresenceUpdate m p) = some p) :=
  presence_one_record_per_user [] presOpsSample (by simp [objKeys])
    (by
      intro op hop
      rcases (by simpa [presOpsSample] using hop :
          op = .push presSample ∨ op = .push presSample2 ∨
            op = .bulkMerge [("bob", presBob)]) with rfl | rfl | rfl
      · trivial
      · trivial
      · simp [PresenceOpWF, objKeys])

/-! ## Realtime message deduplication (C3) -/

theorem handleNewMessage_messages_nodup (st : ChatStore) (m : MsgRec) (topic : String)
    (h : ∀ c, (((st.messages c).getD []).map MsgRec.id).Nodup) :
    ∀ c, ((((handleNewMessage st m topic).messages c).getD []).map MsgRec.id).Nodup := by
  intro c
  unfold handleNewMessage
  by_cases hex :
      ((st.messages (topicConversationId topic)).getD []).any (fun msg => msg.id == m.id) = true
  · simpa [hex] using h c
  · have hex' :
        ((st.messages (topicConversationId topic)).getD []).any (fun msg => msg.id == m.id)
          = false := by
      exact Bool.eq_false_iff.mpr hex
    by_cases hc : c == topicConversationId topic
    · have hnotmem :
          m.id ∉ ((st.messages (topicConversationId topic)).getD []).map MsgRec.id := by
        intro hmem
        obtain ⟨msg, hmsg, hid⟩ := List.mem_map.mp hmem
        have := List.any_eq_false.mp hex' msg hmsg
        simp [hid] at this
      simp only [hex', Bool.false_eq_true, if_false, hc, if_true, Option.getD_some,
        List.map_cons]
      exact List.nodup_cons.mpr ⟨hnotmem, h _⟩
    · have hc' : (c == topicConversationId topic) = false := Bool.eq_false_iff.mpr hc
      simpa [hex', hc'] using h c

theorem applyNewMessages_nodup (evs : List (MsgRec × String)) :
    ∀ st : ChatStore, (∀ c, (((st.messages c).getD []).map MsgRec.id).Nodup) →
      ∀ c, ((((applyNewMessages st evs).messages c).getD []).map MsgRec.id).Nodup := by
  induction evs with
  | nil => intro st h; exact h
  | cons ev evs ih =>
    intro st h
    exact ih _ (handleNewMessage_messages_nodup st ev.1 ev.2 h)

/-- C3: starting from a store whose per-conversation message lists carry
pairwise distinct identifiers, any sequence of inbound realtime message
events leaves at most one entry per identifier in every conversation's
list, and an event whose identifier is already cached for its conversation
leaves the whole messages map unchanged (the handler returns `prev`). -/
theorem newMessage_dedup (st : ChatStore) (evs : List (MsgRec × String))
    (h : ∀ c, (((st.messages c).getD []).map MsgRec.id).Nodup) :
    (∀ c i, ((((applyNewMessages st evs).messages c).getD []).map MsgRec.id).count i ≤ 1) ∧
    (∀ (m : MsgRec) (topic : String),
      ((st.messages (topicConversationId topic)).getD []).any (fun msg => msg.id == m.id)
          = true →
      ∀ c, (handleNewMessage st m topic).messages c = st.messages c) := by
  constructor
  · intro c i
    exact List.nodup_iff_count_le_one.mp (applyNewMessages_nodup evs st h c) i
  · intro m topic hdup c
    unfold handleNewMessage
    simp [hdup]

theorem newMessage_dedup_witness :
    (∀ c i,
      ((((applyNewMessages cachedStore dupMessageEvents).messages c).getD [])
        |>.map MsgRec.id).count i ≤ 1) ∧
    (∀ (m : MsgRec) (topic : String),
      (((cachedStore.messages (topicConversationId topic)).getD []).any
          (fun msg => msg.id == m.id)) = true →
      ∀ c, (handleNewMessage cachedStore m topic).messages c = cachedStore.messages c) :=
  newMessage_dedup cachedStore dupMessageEvents
    (by
      intro c
      by_cases h : c = "c1" <;> simp [cachedStore, emptyStore, h, msgA])

/-! ## The upload retry loop (C2) -/

theorem uploadLoopAux_allFk (attempts : Nat → AttemptOutcome)
    (hall : ∀ i, i < maxRetries → outcomeFkErr (attempts i) = true) :
    ∀ gas, ∀ retries acc dcount : Nat,
      gas + retries = maxRetries → 1 ≤ gas →
      uploadLoopAux attempts gas retries acc dcount =
        ⟨.threw (outcomeMsg (attempts (maxRetries - 1))), maxRetries, acc + gas,
          dcount + (gas - 1)⟩ := by
  intro gas
  induction gas with
  | zero => intro retries acc dcount _ h1; omega
  | succ g ih =>
    intro retries acc dcount hsum _
    have hret : retries < maxRetries := by omega
    have hfk := hall retries hret
    cases hA : attempts retries with
    | ok aid => rw [hA] at hfk; simp [outcomeFkErr] at hfk
    | err m =>
      rw [hA] at hfk
      have hfk' : isFkViolation m = true := hfk
      simp only [uploadLoopAux, hA, hfk', if_true]
      by_cases hlt : retries + 1 < maxRetries
      · rw [if_pos hlt]
        rw [ih (retries + 1) (acc + 1) (dcount + 1) (by omega) (by omega)]
        have hg1 : 1 ≤ g := by omega
        have e3 : acc + 1 + g = acc + (g + 1) := by omega
        have e4 : dcount + 1 + (g - 1) = dcount + (g + 1 - 1) := by omega
        rw [e3, e4]
      · rw [if_neg hlt]
        have e2 : retries + 1 = maxRetries := by omega
        have h9 : retries = maxRetries - 1 := by omega
        have hg0 : g = 0 := by omega
        subst hg0
        have e1 : m = outcomeMsg (attempts (maxRetries - 1)) := by
          rw [h9] at hA
          rw [hA]
          rfl
        rw [e1, e2]
        have e3 : acc + 1 = acc + (0 + 1) := by omega
        have e4 : dcount = dcount + (0 + 1 - 1) := by omega
        rw [← e3, ← e4]

theorem uploadLoopAux_success (attempts : Nat → AttemptOutcome) (k : Nat) (aid : String)
    (hk : k < maxRetries) (hA : attempts k = .ok aid)
    (hpre : ∀ i, i < k → outcomeFkErr (attempts i) = true) :
    ∀ gas, ∀ retries acc dcount : Nat,
      gas + retries = maxRetries → retries ≤ k →
      uploadLoopAux attempts gas retries acc dcount =
        ⟨.broke aid, k, acc + (k - retries) + 1, dcount + (k - retries)⟩ := by
  intro gas
  induction gas with
  | zero => intro retries acc dcount hsum hle; omega
  | succ g ih =>
    intro retries acc dcount hsum hle
    by_cases hrk : retries = k
    · rw [hrk]
      simp only [uploadLoopAux, hA, Nat.sub_self, Nat.add_zero]
    · have hret : retries < k := by omega
      have hfk := hpre retries hret
      cases hB : attempts retries with
      | ok a => rw [hB] at hfk; simp [outcomeFkErr] at hfk
      | err m =>
        rw [hB] at hfk
        have hfk' : isFkViolation m = true := hfk
        have hlt : retries + 1 < maxRetries := by omega
        simp only [uploadLoopAux, hB, hfk', if_true, if_pos hlt]
        rw [ih (retries + 1) (acc + 1) (dcount + 1) (by omega) (by omega)]
        have e3 : acc + 1 + (k - (retries + 1)) + 1 = acc + (k - retries) + 1 := by omega
        have e4 : dcount + 1 + (k - (retries + 1)) = dcount + (k - retries) := by omega
        rw [e3, e4]

/-- C2 amended: the per-file upload step is attempted up to 10 times with a
500 ms sleep before each retry, and the retries happen only for the
foreign-key error signature; but when the bound is exhausted the code
gives up by rethrowing the last foreign-key error itself (the
`throw uploadError` on line 255 runs when `retries` reaches `maxRetries`),
so the descriptive message naming the file and the attempt count (lines
259-261) is never the thrown failure.  A failure that does not match the
signature is rethrown immediately after a single attempt, and a success on
attempt `k` ends the loop after `k + 1` attempts and `k` delays. -/
theorem fileUpload_retry_policy (fileName : String) :
    (∀ attempts : Nat → AttemptOutcome,
      (∀ i, i < maxRetries → outcomeFkErr (attempts i) = true) →
      fileUploadStep fileName attempts = .error (outcomeMsg (attempts (maxRetries - 1))) ∧
        (uploadLoop attempts).attemptsMade = 10 ∧ (uploadLoop attempts).delaysDone = 9) ∧
    (∀ (attempts : Nat → AttemptOutcome) (m0 : String),
      attempts 0 = .err m0 → isFkViolation m0 = false →
      fileUploadStep fileName attempts = .error m0 ∧
        (uploadLoop attempts).attemptsMade = 1 ∧ (uploadLoop attempts).delaysDone = 0) ∧
    (∀ (attempts : Nat → AttemptOutcome) (k : Nat) (aid : String),
      k < maxRetries → (∀ i, i < k → outcomeFkErr (attempts i) = true) →
      attempts k = .ok aid →
      fileUploadStep fileName attempts = .ok (some aid) ∧
        (uploadLoop attempts).attemptsMade = k + 1 ∧ (uploadLoop attempts).delaysDone = k) := by
  refine ⟨?_, ?_, ?_⟩
  · intro attempts hall
    have hrun : uploadLoop attempts =
        ⟨.threw (outcomeMsg (attempts (maxRetries - 1))), maxRetries, 0 + maxRetries,
          0 + (maxRetries - 1)⟩ :=
      uploadLoopAux_allFk attempts hall maxRetries 0 0 0 (by omega) (by unfold maxRetries; omega)
    refine ⟨?_, by rw [hrun]; rfl, by rw [hrun]; rfl⟩
    unfold fileUploadStep
    rw [hrun]
  · intro attempts m0 hA hnfk
    have hrun : uploadLoop attempts = ⟨.threw m0, 0, 1, 0⟩ := by
      show uploadLoopAux attempts maxRetries 0 0 0 = _
      show uploadLoopAux attempts (9 + 1) 0 0 0 = _
      simp [uploadLoopAux, hA, hnfk]
    refine ⟨?_, by rw [hrun], by rw [hrun]⟩
    unfold fileUploadStep
    rw [hrun]
  · intro attempts k aid hk hpre hA
    have hrun : uploadLoop attempts = ⟨.broke aid, k, 0 + (k - 0) + 1, 0 + (k - 0)⟩ :=
      uploadLoopAux_success attempts k aid hk hA hpre maxRetries 0 0 0 (by omega) (by omega)
    refine ⟨?_, by rw [hrun]; simp, by rw [hrun]; simp⟩
    unfold fileUploadStep
    rw [hrun]
    have : ¬ maxRetries ≤ k := by omega
    simp [this]

/-- C2 as stated is false on the code: with every attempt failing on the
foreign-key signature, the operation gives up by rethrowing that raw
foreign-key error — a message naming neither the file nor the attempt
count — instead of the descriptive failure of lines 259-261. -/
theorem fileUpload_retry_cex :
    fileUploadStep "report.pdf" attemptsAllFk =
        .error "insert or update on table violates foreign key constraint" ∧
      strIncludes "insert or update on table violates foreign key constraint" "report.pdf"
          = false ∧
      "insert or update on table violates foreign key constraint" ≠
        descriptiveFailure "report.pdf" := by
  refine ⟨rfl, rfl, by decide⟩

theorem fileUpload_retry_policy_witness :
    fileUploadStep "report.pdf" attemptsAllFk =
        .error (outcomeMsg (attemptsAllFk (maxRetries - 1))) ∧
      (uploadLoop attemptsAllFk).attemptsMade = 10 ∧
      (uploadLoop attemptsAllFk).delaysDone = 9 :=
  (fileUpload_retry_policy "report.pdf").1 attemptsAllFk (fun _ _ => rfl)

/-! ## `sendMessageWithFiles` is not atomic across files (C10) -/

theorem applyFileUpdate_conversations (cid : String) (st : ChatStore) (f : FileScript) :
    (applyFileUpdate cid st f).conversations = st.conversations := by
  unfold applyFileUpdate
  cases hc : f.createResult with
  | error e => rfl
  | ok m =>
    cases hu : fileUploadStep f.fileName f.attempts with
    | error e => rfl
    | ok o =>
      cases o with
      | none => rfl
      | some aid => rfl

theorem foldl_applyFileUpdate_conversations (cid : String) (files : List FileScript) :
    ∀ st : ChatStore, (files.foldl (applyFileUpdate cid) st).conversations = st.conversations := by
  induction files with
  | nil => intro st; rfl
  | cons f rest ih =>
    intro st
    rw [List.foldl_cons, ih, applyFileUpdate_conversations]

theorem processFiles_fail (cid : String) :
    ∀ (files : List FileScript) (st : ChatStore) (lm : Option MsgRec) (k : Nat),
      firstFailIdx files = some k →
      ∃ e lm', processFiles cid files st lm =
        (.error e, (files.take k).foldl (applyFileUpdate cid) st, lm') := by
  intro files
  induction files with
  | nil => intro st lm k h; simp [firstFailIdx] at h
  | cons f rest ih =>
    intro st lm k h
    by_cases hf : fileFails f = true
    · have hk0 : k = 0 := by
        unfold firstFailIdx at h
        rw [if_pos hf] at h
        exact (Option.some_inj.mp h).symm
      subst hk0
      simp only [List.take_zero, List.foldl_nil]
      cases hc : f.createResult with
      | error e => exact ⟨e, lm, by simp [processFiles, hc]⟩
      | ok m =>
        cases hu : fileUploadStep f.fileName f.attempts with
        | error e => exact ⟨e, lm, by simp [processFiles, hc, hu]⟩
        | ok o =>
          exfalso
          unfold fileFails at hf
          rw [hc, hu] at hf
          simp at hf
    · have hf' : fileFails f = false := Bool.eq_false_iff.mpr hf
      have hrest : ∃ k', firstFailIdx rest = some k' ∧ k = k' + 1 := by
        unfold firstFailIdx at h
        rw [if_neg hf] at h
        cases hr : firstFailIdx rest with
        | none =>
          rw [hr] at h
          exact absurd h (by simp)
        | some k' =>
          rw [hr] at h
          simp at h
          exact ⟨k', rfl, h.symm⟩
      obtain ⟨k', hk', rfl⟩ := hrest
      unfold fileFails at hf'
      cases hc : f.createResult with
      | error e => rw [hc] at hf'; simp at hf'
      | ok m =>
        rw [hc] at hf'
        cases hu : fileUploadStep f.fileName f.attempts with
        | error e => rw [hu] at hf'; simp at hf'
        | ok o =>
          cases o with
          | none =>
            obtain ⟨e, lm', hp⟩ := ih st lm k' hk'
            refine ⟨e, lm', ?_⟩
            have hstep : processFiles cid (f :: rest) st lm = processFiles cid rest st lm := by
              simp [processFiles, hc, hu]
            rw [hstep, hp]
            have hupd : applyFileUpdate cid st f = st := by
              unfold applyFileUpdate
              rw [hc, hu]
            simp [List.take_succ_cons, hupd]
          | some aid =>
            obtain ⟨e, lm', hp⟩ :=
              ih (applyReadyUpdate cid m aid st) (some (readyMessage m aid)) k' hk'
            refine ⟨e, lm', ?_⟩
            have hstep : processFiles cid (f :: rest) st lm =
                processFiles cid rest (applyReadyUpdate cid m aid st)
                  (some (readyMessage m aid)) := by
              simp [processFiles, hc, hu]
            rw [hstep, hp]
            have hupd : applyFileUpdate cid st f = applyReadyUpdate cid m aid st := by
              unfold applyFileUpdate
              rw [hc, hu]
            simp [List.take_succ_cons, hupd]

/-- C10: when the files' scripts first fail at index `k` (row creation or
upload failing after the retry policy), `sendMessageWithFiles` rethrows,
the store it leaves behind is exactly the input store with the ready-state
message patches of the successful prefix applied (those messages remain in
the message map), and the conversations list — including every
`latest_message` pointer — is unchanged, because the pointer update of
lines 264-273 runs only after the loop finishes all files. -/
theorem sendMessageWithFiles_partial_failure (cid : String) (files : List FileScript)
    (st : ChatStore) (k : Nat) (h : firstFailIdx files = some k) :
    ∃ e, sendMessageWithFiles cid files st =
        (.error e, (files.take k).foldl (applyFileUpdate cid) st) ∧
      ((files.take k).foldl (applyFileUpdate cid) st).conversations = st.conversations := by
  obtain ⟨e, lm', hp⟩ := processFiles_fail cid files st none k h
  refine ⟨e, ?_, foldl_applyFileUpdate_conversations cid (files.take k) st⟩
  unfold sendMessageWithFiles
  rw [hp]

theorem sendMessageWithFiles_partial_failure_witness :
    ∃ e, sendMessageWithFiles "c1" [fileGood, fileBad] cachedStore =
        (.error e, ([fileGood, fileBad].take 1).foldl (applyFileUpdate "c1") cachedStore) ∧
      (([fileGood, fileBad].take 1).foldl (applyFileUpdate "c1") cachedStore).conversations =
        cachedStore.conversations :=
  sendMessageWithFiles_partial_failure "c1" [fileGood, fileBad] cachedStore 1 rfl

/-! ## `selectConversation` re-fetch behaviour (C6) -/

/-- C6 as stated is false on the code: after a first `selectConversation`
has populated both caches, a second call still issues a message-fetch — the
unconditional `await loadMessages(conversationId)` of line 140, which is an
immediate awaited call, not a delayed background one.  (The first call even
fetches the messages twice.) -/
theorem selectConversation_second_call_cex :
    ((((selectConversation envSelect emptyStore "c1").1).messages "c1").isSome = true) ∧
      ((selectConversation envSelect
          ((selectConversation envSelect emptyStore "c1").1) "c1").2).count
        (Request.fetchMessages "c1") = 1 ∧
      ((selectConversation envSelect
          ((selectConversation envSelect emptyStore "c1").1) "c1").2).count
        (Request.fetchMessages "c1") ≠ 0 ∧
      ((selectConversation envSelect emptyStore "c1").2).count
        (Request.fetchMessages "c1") = 2 := by
  refine ⟨rfl, rfl, by decide, rfl⟩

/-- C6 amended: with the conversation's messages and participants already
cached and the mark-read call succeeding, `selectConversation` skips the
cache-populating loads (no participant fetch, no initial message fetch)
but still issues exactly one message-fetch request: the unconditional,
immediate read-state re-fetch performed after marking the conversation
read. -/
theorem selectConversation_cached_requests (env : SelectEnv) (st : ChatStore)
    (cid : String)
    (hm : (st.messages cid).isSome = true)
    (hp : (st.participants cid).isSome = true)
    (hr : env.markReadResult cid = .ok ()) :
    (selectConversation env st cid).2 =
      (if env.mqttConnected then [Request.subscribeMessages cid, Request.subscribeTyping cid]
        else []) ++ [Request.markRead cid, Request.fetchMessages cid] ∧
    (selectConversation env st cid).2.count (Request.fetchMessages cid) = 1 ∧
    (selectConversation env st cid).2.count (Request.fetchParticipants cid) = 0 := by
  obtain ⟨msgs, hmsgs⟩ := Option.isSome_iff_exists.mp hm
  obtain ⟨parts, hparts⟩ := Option.isSome_iff_exists.mp hp
  have htrace : (selectConversation env st cid).2 =
      (if env.mqttConnected then [Request.subscribeMessages cid, Request.subscribeTyping cid]
        else []) ++ [Request.markRead cid, Request.fetchMessages cid] := by
    unfold selectConversation
    simp only [hmsgs, hparts, hr]
    cases hf : env.messagesFetch cid with
    | ok data => simp [loadMessagesCall, hf]
    | error e => simp [loadMessagesCall, hf]
  refine ⟨htrace, ?_, ?_⟩ <;> rw [htrace] <;> cases hmq : env.mqttConnected <;>
    simp [List.count_cons, List.count_nil]

theorem selectConversation_cached_requests_witness :
    (selectConversation envSelect cachedStore "c1").2 =
      (if envSelect.mqttConnected then
        [Request.subscribeMessages "c1", Request.subscribeTyping "c1"] else []) ++
        [Request.markRead "c1", Request.fetchMessages "c1"] ∧
    (selectConversation envSelect cachedStore "c1").2.count (Request.fetchMessages "c1") = 1 ∧
    (selectConversation envSelect cachedStore "c1").2.count (Request.fetchParticipants "c1")
        = 0 :=
  selectConversation_cached_requests envSelect cachedStore "c1" rfl rfl rfl

/-! ## Typing entries expire within 5 seconds (C5) -/

theorem le_foldr_max (x : Nat) : ∀ l : List Nat, x ∈ l → x ≤ l.foldr max 0 := by
  intro l
  induction l with
  | nil => intro h; simp at h
  | cons a t ih =>
    intro h
    rcases List.mem_cons.mp h with rfl | h
    · exact le_max_left _ _
    · exact le_trans (ih h) (le_max_right _ _)

theorem fireDue_presence (now : Nat) (sim : TypingSim) (c u : String)
    (h : (objGet u ((fireDue now sim).typingUsers c)).isSome = true) :
    (objGet u (sim.typingUsers c)).isSome = true ∧
      sim.timers.any (timerDue now c u) = false := by
  obtain ⟨v, hv⟩ := (objGet_isSome_iff _ _).mp h
  have hv' : (u, v) ∈ (sim.typingUsers c).filter
      (fun e => !(sim.timers.any (timerDue now c e.1))) := hv
  have hmem := (List.mem_filter.mp hv').1
  have hpred := (List.mem_filter.mp hv').2
  exact ⟨(objGet_isSome_iff _ _).mpr ⟨v, hmem⟩, by simpa using hpred⟩

theorem simInv_fireDue (evs : List TimedTypingEvent) (sim : TypingSim) (now : Nat)
    (hinv : SimInv evs sim) : SimInv evs (fireDue now sim) := by
  intro c u hp
  obtain ⟨hp0, hnodue⟩ := fireDue_presence now sim c u hp
  obtain ⟨d, hd, ev, hev, hty, hde⟩ := hinv c u hp0
  have hgt : now < d := by
    by_contra hle
    push_neg at hle
    have hany : sim.timers.any (timerDue now c u) = true :=
      List.any_eq_true.mpr ⟨(d, c, u), hd, by simp [timerDue, hle]⟩
    rw [hany] at hnodue
    exact Bool.noConfusion hnodue
  exact ⟨d, List.mem_filter.mpr ⟨hd, by simpa using hgt⟩, ev, hev, hty, hde⟩

theorem simInv_step (evs : List TimedTypingEvent) (sim : TypingSim) (ev : TimedTypingEvent)
    (hinv : SimInv evs sim) : SimInv (evs ++ [ev]) (stepTypingEvent sim ev) := by
  have hfin := simInv_fireDue evs sim ev.time hinv
  intro c u hp
  have hstep : (stepTypingEvent sim ev).typingUsers =
      handleTypingIndicator (fireDue ev.time sim).typingUsers ev.data ev.topic := rfl
  rw [hstep] at hp
  by_cases hty : ev.data.is_typing = true
  · simp only [handleTypingIndicator, hty, if_true] at hp
    by_cases hc : c = topicConversationId ev.topic
    · subst hc
      simp only [beq_self_eq_true, if_true, objGet_objSet] at hp
      by_cases hu : u = ev.data.user_id
      · subst hu
        refine ⟨ev.time + typingExpiryMs, List.mem_cons_self _ _, ev,
          List.mem_append_right _ (List.mem_cons_self _ _), ?_, rfl⟩
        simp [isTypingEventFor, hty]
      · rw [if_neg hu] at hp
        obtain ⟨d, hd, ev', hev', hty', hde'⟩ := hfin _ u hp
        exact ⟨d, List.mem_cons_of_mem _ hd, ev', List.mem_append_left _ hev', hty', hde'⟩
    · have hc' : (c == topicConversationId ev.topic) = false := by
        simpa using hc
      simp only [hc', Bool.false_eq_true, if_false] at hp
      obtain ⟨d, hd, ev', hev', hty', hde'⟩ := hfin c u hp
      exact ⟨d, List.mem_cons_of_mem _ hd, ev', List.mem_append_left _ hev', hty', hde'⟩
  · have htyf : ev.data.is_typing = false := Bool.eq_false_iff.mpr hty
    simp only [handleTypingIndicator, htyf, Bool.false_eq_true, if_false] at hp
    by_cases hc : c = topicConversationId ev.topic
    · subst hc
      simp only [beq_self_eq_true, if_true, objGet_objRemove] at hp
      by_cases hu : u = ev.data.user_id
      · rw [if_pos hu] at hp
        exact absurd hp (by simp)
      · rw [if_neg hu] at hp
        obtain ⟨d, hd, ev', hev', hty2, hde'⟩ := hfin _ u hp
        exact ⟨d, List.mem_cons_of_mem _ hd, ev', List.mem_append_left _ hev', hty2, hde'⟩
    · have hc' : (c == topicConversationId ev.topic) = false := by
        simpa using hc
      simp only [hc', Bool.false_eq_true, if_false] at hp
      obtain ⟨d, hd, ev', hev', hty2, hde'⟩ := hfin c u hp
      exact ⟨d, List.mem_cons_of_mem _ hd, ev', List.mem_append_left _ hev', hty2, hde'⟩

theorem simInv_runAux (evs : List TimedTypingEvent) :
    ∀ (pre : List TimedTypingEvent) (sim : TypingSim), SimInv pre sim →
      SimInv (pre ++ evs) (evs.foldl stepTypingEvent sim) := by
  induction evs with
  | nil => intro pre sim h; simpa using h
  | cons ev evs ih =>
    intro pre sim h
    have h2 := ih (pre ++ [ev]) _ (simInv_step pre sim ev h)
    simpa [List.append_assoc] using h2

theorem simInv_run (evs : List TimedTypingEvent) : SimInv evs (runTyping evs) := by
  have h0 : SimInv [] initTypingSim := by
    intro c u hp
    simp [initTypingSim, objGet] at hp
  simpa using simInv_runAux evs [] initTypingSim h0

/-- C5: after any sequence of inbound typing events, a per-user entry still
visible at time `now` (once every scheduled 5-second removal due by `now`
has fired) implies `now` is within 5 seconds of that user's most recent
typing event for the conversation — equivalently, the map never holds an
entry more than `typingExpiryMs` past the most recent event, even if no
stop event ever arrives, because every event schedules its own removal. -/
theorem typing_entry_expires (evs : List TimedTypingEvent) (now : Nat) (c u : String)
    (h : (objGet u (observeTyping evs now c)).isSome = true) :
    typingTimes evs c u ≠ [] ∧ now < lastTypingTime evs c u + typingExpiryMs := by
  obtain ⟨hp0, hnodue⟩ := fireDue_presence now (runTyping evs) c u h
  obtain ⟨d, hd, ev, hev, hty, hde⟩ := simInv_run evs c u hp0
  have hgt : now < d := by
    by_contra hle
    push_neg at hle
    have hany : (runTyping evs).timers.any (timerDue now c u) = true :=
      List.any_eq_true.mpr ⟨(d, c, u), hd, by simp [timerDue, hle]⟩
    rw [hany] at hnodue
    exact Bool.noConfusion hnodue
  have hlt : now < ev.time + typingExpiryMs := hde ▸ hgt
  have hmem : ev.time ∈ typingTimes evs c u :=
    List.mem_map.mpr ⟨ev, List.mem_filter.mpr ⟨hev, hty⟩, rfl⟩
  refine ⟨?_, ?_⟩
  · intro hnil
    rw [hnil] at hmem
    exact absurd hmem (List.not_mem_nil _)
  · have hle := le_foldr_max ev.time (typingTimes evs c u) hmem
    unfold lastTypingTime
    omega

theorem typing_entry_expires_witness :
    typingTimes [typingEvSample] "c1" "bob" ≠ [] ∧
      3000 < lastTypingTime [typingEvSample] "c1" "bob" + typingExpiryMs :=
  typing_entry_expires [typingEvSample] 3000 "c1" "bob" (by decide)

end Orbit
